import Mathlib

/-!
# Verification of the position/ledger accounting core of `llmtrading`

Shallow embedding of `src/trading_simulator.py` (classes `PositionType`,
`Position`, `TradingSimulator`). Python floats are modelled by `ℚ` (the
arithmetic in the claims is exact field arithmetic); Python object identity,
which the source relies on for `position in self.open_positions` and
`open_positions.remove(position)`, is modelled by a `pid : ℕ` field that the
simulator assigns from a fresh counter at each successful open. Timestamps
(`datetime.now()`) and `print` calls carry no accounting information and are
omitted. Trade-log dictionaries are modelled by the inductive `TradeRecord`,
keeping exactly the numeric/string fields the source writes.
-/

namespace LLMTrading

/-- `class PositionType(Enum)`: `LONG = "long"`, `SHORT = "short"`. -/
inductive PositionType where
  | long
  | short
deriving DecidableEq

/-- The `.value` of the enum member, as used in trade records. -/
def PositionType.value : PositionType → String
  | .long => "long"
  | .short => "short"

/-- `class Position` of `trading_simulator.py`. `pid` models Python object
identity (see module docstring); all other fields are the source's attributes.
`exit_price = none` and `pnl = 0` at construction, matching `__init__`. -/
structure Position where
  pid : ℕ
  symbol : String
  position_type : PositionType
  size : ℚ
  entry_price : ℚ
  leverage : ℚ
  exit_price : Option ℚ
  pnl : ℚ
  target_price : Option ℚ
  stop_loss : Option ℚ
deriving DecidableEq

/-- `Position.calculate_pnl(self, current_price)`:
long: `(current_price - entry_price) / entry_price`;
short: `(entry_price - current_price) / entry_price`;
result `size * price_change_pct * leverage`. -/
def Position.calculate_pnl (self : Position) (current_price : ℚ) : ℚ :=
  let price_change_pct :=
    if self.position_type = PositionType.long then
      (current_price - self.entry_price) / self.entry_price
    else
      (self.entry_price - current_price) / self.entry_price
  self.size * price_change_pct * self.leverage

/-- One entry of `TradingSimulator.trade_history`. The source appends dicts of
two shapes: the `'open'` record (keys action/symbol/type/size/price/leverage)
and the `'close'` record (keys action/symbol/type/size/entry_price/exit_price/
leverage/pnl). Timestamps are omitted. -/
inductive TradeRecord where
  | openRec (symbol : String) (ptype : String) (size : ℚ) (price : ℚ) (leverage : ℚ)
  | closeRec (symbol : String) (ptype : String) (size : ℚ) (entry_price : ℚ)
      (exit_price : ℚ) (leverage : ℚ) (pnl : ℚ)
deriving DecidableEq

/-- `class TradingSimulator`. `next_pid` is the fresh-identity counter backing
the `pid` model of object identity. -/
structure TradingSimulator where
  initial_capital : ℚ
  capital : ℚ
  max_leverage : ℚ
  open_positions : List Position
  closed_positions : List Position
  trade_history : List TradeRecord
  next_pid : ℕ
deriving DecidableEq

/-- `TradingSimulator.__init__(initial_capital, max_leverage=10)`. -/
def TradingSimulator.init (initial_capital : ℚ) (max_leverage : ℚ) : TradingSimulator :=
  { initial_capital := initial_capital
    capital := initial_capital
    max_leverage := max_leverage
    open_positions := []
    closed_positions := []
    trade_history := []
    next_pid := 0 }

/-- `get_available_capital`: returns `self.capital`. -/
def TradingSimulator.get_available_capital (self : TradingSimulator) : ℚ :=
  self.capital

/-- `get_total_value(current_prices)`: start from `capital`; for each open
position add back its margin `size / leverage`, and when its symbol has a
price in the snapshot also add `calculate_pnl` at that price. The snapshot
dict is modelled as an association list queried with `List.lookup`. -/
def TradingSimulator.get_total_value (self : TradingSimulator)
    (current_prices : List (String × ℚ)) : ℚ :=
  self.open_positions.foldl
    (fun total position =>
      let margin := position.size / position.leverage
      let total := total + margin
      match current_prices.lookup position.symbol with
      | some price => total + position.calculate_pnl price
      | none => total)
    self.capital

/-- The `Position(...)` constructed inside `open_position` (source lines
143-153): direction `LONG` iff `position_type.lower() == 'long'`, entry price
the call's current price, identity the simulator's fresh counter. -/
def openedPosition (self : TradingSimulator) (symbol : String) (position_type : String)
    (size : ℚ) (current_price : ℚ) (leverage : ℚ)
    (target_price : Option ℚ) (stop_loss : Option ℚ) : Position :=
  { pid := self.next_pid
    symbol := symbol
    position_type :=
      if position_type.toLower = "long" then PositionType.long else PositionType.short
    size := size
    entry_price := current_price
    leverage := leverage
    exit_price := none
    pnl := 0
    target_price := target_price
    stop_loss := stop_loss }

/-- `open_position(symbol, position_type, size, current_price, leverage,
target_price, stop_loss)`. Checks in source order: `leverage > max_leverage`,
`leverage < 1`, `margin_required > get_available_capital()` with
`margin_required = size / leverage`; each failure returns `None` with no
state change. On success appends `openedPosition` to `open_positions`,
debits `capital -= margin_required`, appends an `'open'` trade record, and
returns the position. -/
def TradingSimulator.open_position (self : TradingSimulator) (symbol : String)
    (position_type : String) (size : ℚ) (current_price : ℚ) (leverage : ℚ)
    (target_price : Option ℚ) (stop_loss : Option ℚ) :
    Option Position × TradingSimulator :=
  if self.max_leverage < leverage then
    (none, self)
  else if leverage < 1 then
    (none, self)
  else if self.get_available_capital < size / leverage then
    (none, self)
  else
    (some (openedPosition self symbol position_type size current_price leverage
        target_price stop_loss),
      { self with
        open_positions := self.open_positions ++
          [openedPosition self symbol position_type size current_price leverage
            target_price stop_loss]
        capital := self.capital - size / leverage
        trade_history := self.trade_history ++
          [TradeRecord.openRec symbol position_type size current_price leverage]
        next_pid := self.next_pid + 1 })

/-- The close-time field writes of `close_position` (source lines 189-191):
`pnl = calculate_pnl(current_price)`, `exit_price = current_price`. -/
def Position.closedAt (p : Position) (current_price : ℚ) : Position :=
  { p with pnl := p.calculate_pnl current_price, exit_price := some current_price }

/-- `close_position(position, current_price)`. If no open position has the
argument's identity, print a warning and return `0.0` with no state change.
Otherwise set the position's `pnl` and `exit_price`, credit
`capital += margin + pnl` with `margin = size / leverage`, move the position
from `open_positions` to `closed_positions`, append a `'close'` trade record,
and return the P&L. Identity lookup/removal (`in` / `list.remove`) is modelled
by `find?` / `eraseP` on `pid`. -/
def TradingSimulator.close_position (self : TradingSimulator) (position : Position)
    (current_price : ℚ) : ℚ × TradingSimulator :=
  match self.open_positions.find? (fun p => p.pid == position.pid) with
  | none => (0, self)
  | some stored =>
      (stored.calculate_pnl current_price,
        { self with
          capital := self.capital + stored.size / stored.leverage +
            stored.calculate_pnl current_price
          open_positions := self.open_positions.eraseP (fun p => p.pid == position.pid)
          closed_positions := self.closed_positions ++ [stored.closedAt current_price]
          trade_history := self.trade_history ++
            [TradeRecord.closeRec stored.symbol stored.position_type.value stored.size
              stored.entry_price current_price stored.leverage
              (stored.calculate_pnl current_price)] })

/-- `close_all_positions(current_prices)`: iterate over a copy of the open
list; close each position whose symbol has a price in the snapshot, at that
price; silently skip the others. -/
def TradingSimulator.close_all_positions (self : TradingSimulator)
    (current_prices : List (String × ℚ)) : TradingSimulator :=
  self.open_positions.foldl
    (fun s position =>
      match current_prices.lookup position.symbol with
      | some price => (s.close_position position price).2
      | none => s)
    self

/-- The dict returned by `get_statistics(current_prices)`. -/
structure Statistics where
  initial_capital : ℚ
  current_capital : ℚ
  total_value : ℚ
  total_pnl : ℚ
  roi_percent : ℚ
  open_positions : ℕ
  closed_positions : ℕ
  total_trades : ℕ
  winning_trades : ℕ
  losing_trades : ℕ
  win_rate : ℚ
deriving DecidableEq

/-- `get_statistics(current_prices)`: winning trades are closed positions with
`pnl > 0`; `win_rate = winners / closed * 100` when the closed list is
non-empty, else `0`. -/
def TradingSimulator.get_statistics (self : TradingSimulator)
    (current_prices : List (String × ℚ)) : Statistics :=
  let total_value := self.get_total_value current_prices
  let total_pnl := total_value - self.initial_capital
  let roi := total_pnl / self.initial_capital * 100
  let winning_trades := self.closed_positions.filter (fun p => decide (0 < p.pnl))
  let losing_trades := self.closed_positions.filter (fun p => decide (p.pnl ≤ 0))
  let win_rate :=
    if self.closed_positions = [] then 0
    else (winning_trades.length : ℚ) / (self.closed_positions.length : ℚ) * 100
  { initial_capital := self.initial_capital
    current_capital := self.capital
    total_value := total_value
    total_pnl := total_pnl
    roi_percent := roi
    open_positions := self.open_positions.length
    closed_positions := self.closed_positions.length
    total_trades := self.closed_positions.length
    winning_trades := winning_trades.length
    losing_trades := losing_trades.length
    win_rate := win_rate }

/-! ## Well-formedness

Python guarantees that distinct `Position` objects have distinct identities;
under the `pid` model this is the statement that the open list carries no
duplicate `pid` and that the fresh counter dominates every `pid` in it. -/

/-- Identity well-formedness of a simulator state. -/
def WF (sim : TradingSimulator) : Prop :=
  (sim.open_positions.map Position.pid).Nodup ∧
    ∀ p ∈ sim.open_positions, p.pid < sim.next_pid

instance (sim : TradingSimulator) : Decidable (WF sim) := by
  unfold WF; infer_instance

/-! ## Basic lemmas about `open_position` -/

/-- When all three validations pass, `open_position` takes the success branch;
the entire result is given explicitly. -/
theorem open_position_succeeds (self : TradingSimulator) (symbol position_type : String)
    (size current_price leverage : ℚ) (target_price stop_loss : Option ℚ)
    (h1 : 1 ≤ leverage) (h2 : leverage ≤ self.max_leverage)
    (h3 : size / leverage ≤ self.capital) :
    self.open_position symbol position_type size current_price leverage
        target_price stop_loss =
      (some (openedPosition self symbol position_type size current_price leverage
          target_price stop_loss),
        { self with
          open_positions := self.open_positions ++
            [openedPosition self symbol position_type size current_price leverage
              target_price stop_loss]
          capital := self.capital - size / leverage
          trade_history := self.trade_history ++
            [TradeRecord.openRec symbol position_type size current_price leverage]
          next_pid := self.next_pid + 1 }) := by
  unfold TradingSimulator.open_position TradingSimulator.get_available_capital
  rw [if_neg (not_lt.mpr h2), if_neg (not_lt.mpr h1), if_neg (not_lt.mpr h3)]

/-- When any validation fails, `open_position` returns `None` and the state
unchanged. -/
theorem open_position_fails (self : TradingSimulator) (symbol position_type : String)
    (size current_price leverage : ℚ) (target_price stop_loss : Option ℚ)
    (h : self.max_leverage < leverage ∨ leverage < 1 ∨ self.capital < size / leverage) :
    self.open_position symbol position_type size current_price leverage
        target_price stop_loss = (none, self) := by
  unfold TradingSimulator.open_position TradingSimulator.get_available_capital
  split_ifs with hml hone hcap
  · rfl
  · rfl
  · rfl
  · rcases h with h | h | h
    · exact absurd h hml
    · exact absurd h hone
    · exact absurd h hcap

/-! ## Claim C1 -/

/-- The spec's LONG test vector: entry 100, size 200, leverage 2. -/
def longExample : Position :=
  { pid := 0
    symbol := "BTCUSDT"
    position_type := PositionType.long
    size := 200
    entry_price := 100
    leverage := 2
    exit_price := none
    pnl := 0
    target_price := none
    stop_loss := none }

/-- The spec's SHORT test vector: same parameters, direction short. -/
def shortExample : Position :=
  { longExample with position_type := PositionType.short }

/-- C1: for every position with positive entry price, `calculate_pnl` returns
`size * priceChangeFraction * leverage` with the fraction
`(current - entry) / entry` for LONG and `(entry - current) / entry` for
SHORT; the LONG test vector at 110 yields 40 and the SHORT one yields -40. -/
theorem calculate_pnl_spec (p : Position) (current_price : ℚ)
    (hentry : 0 < p.entry_price) :
    p.calculate_pnl current_price =
      p.size *
        (if p.position_type = PositionType.long then
          (current_price - p.entry_price) / p.entry_price
        else
          (p.entry_price - current_price) / p.entry_price) * p.leverage
    ∧ longExample.calculate_pnl 110 = 40
    ∧ shortExample.calculate_pnl 110 = -40 :=
  ⟨rfl,
    by norm_num [Position.calculate_pnl, longExample],
    by norm_num [Position.calculate_pnl, shortExample, longExample]; decide⟩

/-- C1 witness: the theorem applied to the LONG test vector at price 110. -/
theorem calculate_pnl_spec_witness :
    longExample.calculate_pnl 110 =
      longExample.size *
        (if longExample.position_type = PositionType.long then
          (110 - longExample.entry_price) / longExample.entry_price
        else
          (longExample.entry_price - 110) / longExample.entry_price) *
        longExample.leverage :=
  (calculate_pnl_spec longExample 110 (by norm_num [longExample])).1

/-! ## Claims C2 and C3 -/

/-- C2: with `1 ≤ leverage ≤ max_leverage` and `size / leverage ≤ cash`,
`open_position` returns a position whose entry price is the given current
price, appends it to the open list, debits cash by exactly `size / leverage`,
and appends one `'open'` trade record; moreover any leverage strictly above
the ceiling is rejected. -/
theorem open_position_success_spec (self : TradingSimulator)
    (symbol position_type : String) (size current_price leverage : ℚ)
    (target_price stop_loss : Option ℚ)
    (h1 : 1 ≤ leverage) (h2 : leverage ≤ self.max_leverage)
    (h3 : size / leverage ≤ self.capital) :
    (∃ p, (self.open_position symbol position_type size current_price leverage
          target_price stop_loss).1 = some p ∧
        p.entry_price = current_price ∧
        (self.open_position symbol position_type size current_price leverage
            target_price stop_loss).2.open_positions = self.open_positions ++ [p] ∧
        (self.open_position symbol position_type size current_price leverage
            target_price stop_loss).2.capital = self.capital - size / leverage ∧
        (self.open_position symbol position_type size current_price leverage
            target_price stop_loss).2.trade_history = self.trade_history ++
          [TradeRecord.openRec symbol position_type size current_price leverage]) ∧
    ∀ lev2 : ℚ, self.max_leverage < lev2 →
      (self.open_position symbol position_type size current_price lev2
        target_price stop_loss).1 = none := by
  constructor
  · refine ⟨openedPosition self symbol position_type size current_price leverage
      target_price stop_loss, ?_⟩
    rw [open_position_succeeds self symbol position_type size current_price leverage
      target_price stop_loss h1 h2 h3]
    exact ⟨rfl, rfl, rfl, rfl, rfl⟩
  · intro lev2 hlev2
    rw [open_position_fails self symbol position_type size current_price lev2
      target_price stop_loss (Or.inl hlev2)]

/-- C2 witness: a fresh ledger with capital 1000 and ceiling 10, opened at the
leverage boundary `leverage = max_leverage = 10`. -/
theorem open_position_success_spec_witness :
    (∃ p, ((TradingSimulator.init 1000 10).open_position "BTCUSDT" "long" 200 100 10
          none none).1 = some p ∧
        p.entry_price = 100 ∧
        ((TradingSimulator.init 1000 10).open_position "BTCUSDT" "long" 200 100 10
            none none).2.open_positions = (TradingSimulator.init 1000 10).open_positions ++ [p] ∧
        ((TradingSimulator.init 1000 10).open_position "BTCUSDT" "long" 200 100 10
            none none).2.capital = (TradingSimulator.init 1000 10).capital - 200 / 10 ∧
        ((TradingSimulator.init 1000 10).open_position "BTCUSDT" "long" 200 100 10
            none none).2.trade_history = (TradingSimulator.init 1000 10).trade_history ++
          [TradeRecord.openRec "BTCUSDT" "long" 200 100 10]) ∧
    ∀ lev2 : ℚ, (TradingSimulator.init 1000 10).max_leverage < lev2 →
      ((TradingSimulator.init 1000 10).open_position "BTCUSDT" "long" 200 100 lev2
        none none).1 = none :=
  open_position_success_spec (TradingSimulator.init 1000 10) "BTCUSDT" "long" 200 100 10
    none none (by norm_num) (by norm_num [TradingSimulator.init])
    (by norm_num [TradingSimulator.init])

/-- C3: an `open_position` call failing the leverage check or the capital
check returns `None` and leaves cash, the open list, the closed list and the
trade log unchanged. -/
theorem open_position_rejection_spec (self : TradingSimulator)
    (symbol position_type : String) (size current_price leverage : ℚ)
    (target_price stop_loss : Option ℚ)
    (h : self.max_leverage < leverage ∨ leverage < 1 ∨ self.capital < size / leverage) :
    (self.open_position symbol position_type size current_price leverage
        target_price stop_loss).1 = none ∧
    (self.open_position symbol position_type size current_price leverage
        target_price stop_loss).2.capital = self.capital ∧
    (self.open_position symbol position_type size current_price leverage
        target_price stop_loss).2.open_positions = self.open_positions ∧
    (self.open_position symbol position_type size current_price leverage
        target_price stop_loss).2.closed_positions = self.closed_positions ∧
    (self.open_position symbol position_type size current_price leverage
        target_price stop_loss).2.trade_history = self.trade_history := by
  rw [open_position_fails self symbol position_type size current_price leverage
    target_price stop_loss h]
  exact ⟨rfl, rfl, rfl, rfl, rfl⟩

/-- C3 witness: leverage 11 against ceiling 10 on a fresh ledger. -/
theorem open_position_rejection_spec_witness :
    ((TradingSimulator.init 1000 10).open_position "BTCUSDT" "long" 200 100 11
        none none).1 = none ∧
    ((TradingSimulator.init 1000 10).open_position "BTCUSDT" "long" 200 100 11
        none none).2.capital = (TradingSimulator.init 1000 10).capital ∧
    ((TradingSimulator.init 1000 10).open_position "BTCUSDT" "long" 200 100 11
        none none).2.open_positions = (TradingSimulator.init 1000 10).open_positions ∧
    ((TradingSimulator.init 1000 10).open_position "BTCUSDT" "long" 200 100 11
        none none).2.closed_positions = (TradingSimulator.init 1000 10).closed_positions ∧
    ((TradingSimulator.init 1000 10).open_position "BTCUSDT" "long" 200 100 11
        none none).2.trade_history = (TradingSimulator.init 1000 10).trade_history :=
  open_position_rejection_spec (TradingSimulator.init 1000 10) "BTCUSDT" "long" 200 100 11
    none none (Or.inl (by norm_num [TradingSimulator.init]))

/-! ## Identity lookup and removal -/

/-- In a list with no duplicate `pid`, identity lookup of a member finds that
member itself. -/
theorem find?_pid_of_mem (l : List Position) (p : Position)
    (hnd : (l.map Position.pid).Nodup) (hmem : p ∈ l) :
    l.find? (fun q => q.pid == p.pid) = some p := by
  induction l with
  | nil => cases hmem
  | cons a t ih =>
      rw [List.map_cons, List.nodup_cons] at hnd
      rcases List.mem_cons.mp hmem with rfl | hmem2
      · exact List.find?_cons_of_pos t (by simp)
      · have hne : a.pid ≠ p.pid := fun hEq =>
          hnd.1 (hEq ▸ List.mem_map_of_mem Position.pid hmem2)
        rw [List.find?_cons_of_neg t (by simpa using hne)]
        exact ih hnd.2 hmem2

/-- In a list with no duplicate `pid`, identity removal of a member deletes
exactly that member and keeps the rest in order. -/
theorem eraseP_pid_of_mem (l : List Position) (p : Position)
    (hnd : (l.map Position.pid).Nodup) (hmem : p ∈ l) :
    ∃ l₁ l₂, l = l₁ ++ p :: l₂ ∧
      l.eraseP (fun q => q.pid == p.pid) = l₁ ++ l₂ ∧
      ∀ q ∈ l₁, q.pid ≠ p.pid := by
  induction l with
  | nil => cases hmem
  | cons a t ih =>
      rw [List.map_cons, List.nodup_cons] at hnd
      rcases List.mem_cons.mp hmem with rfl | hmem2
      · exact ⟨[], t, rfl, List.eraseP_cons_of_pos (by simp), by simp⟩
      · have hne : a.pid ≠ p.pid := fun hEq =>
          hnd.1 (hEq ▸ List.mem_map_of_mem Position.pid hmem2)
        obtain ⟨l₁, l₂, hsplit, herase, hl₁⟩ := ih hnd.2 hmem2
        refine ⟨a :: l₁, l₂, by rw [List.cons_append, hsplit], ?_, ?_⟩
        · rw [List.eraseP_cons_of_neg (by simpa using hne), herase, List.cons_append]
        · intro q hq
          rcases List.mem_cons.mp hq with rfl | hq2
          · exact hne
          · exact hl₁ q hq2

/-! ## Basic lemmas about `close_position` -/

/-- Closing a position that is in the open list (under identity
well-formedness of that list): the entire result, given explicitly. -/
theorem close_position_present (self : TradingSimulator) (p : Position)
    (current_price : ℚ) (hnd : (self.open_positions.map Position.pid).Nodup)
    (hmem : p ∈ self.open_positions) :
    self.close_position p current_price =
      (p.calculate_pnl current_price,
        { self with
          capital := self.capital + p.size / p.leverage + p.calculate_pnl current_price
          open_positions := self.open_positions.eraseP (fun q => q.pid == p.pid)
          closed_positions := self.closed_positions ++ [p.closedAt current_price]
          trade_history := self.trade_history ++
            [TradeRecord.closeRec p.symbol p.position_type.value p.size p.entry_price
              current_price p.leverage (p.calculate_pnl current_price)] }) := by
  unfold TradingSimulator.close_position
  rw [find?_pid_of_mem self.open_positions p hnd hmem]

/-- Closing a position whose identity is absent from the open list returns
`0.0` and leaves the state unchanged. -/
theorem close_position_absent (self : TradingSimulator) (p : Position)
    (current_price : ℚ) (h : ∀ q ∈ self.open_positions, q.pid ≠ p.pid) :
    self.close_position p current_price = (0, self) := by
  unfold TradingSimulator.close_position
  rw [List.find?_eq_none.mpr (fun q hq => by simpa using h q hq)]

/-! ## Claims C6 and C7 -/

/-- A ledger state with one open LONG (entry 100, size 200, leverage 2),
as left by `open_position` on a fresh capital-1000 ledger. -/
def sampleOpenPos : Position :=
  { pid := 0
    symbol := "BTCUSDT"
    position_type := PositionType.long
    size := 200
    entry_price := 100
    leverage := 2
    exit_price := none
    pnl := 0
    target_price := none
    stop_loss := none }

def sampleSim : TradingSimulator :=
  { initial_capital := 1000
    capital := 900
    max_leverage := 10
    open_positions := [sampleOpenPos]
    closed_positions := []
    trade_history := [TradeRecord.openRec "BTCUSDT" "long" 200 100 2]
    next_pid := 1 }

/-- A position whose identity is not in `sampleSim`'s open list. -/
def missingPos : Position :=
  { sampleOpenPos with pid := 5 }

/-- C6: closing a position `p` of the open list at price `P` records exit
price `P` and realized P&L `calculate_pnl P` on the position, credits cash by
exactly `size / leverage` plus that P&L, removes `p` preserving the order of
the remaining open positions, appends the closed position and one `'close'`
trade record, and returns the P&L. (Identity well-formedness of the open list,
automatic in the Python source, is the `Nodup` hypothesis.) -/
theorem close_position_spec (self : TradingSimulator) (p : Position) (P : ℚ)
    (hnd : (self.open_positions.map Position.pid).Nodup)
    (hmem : p ∈ self.open_positions) :
    ∃ l₁ l₂,
      self.open_positions = l₁ ++ p :: l₂ ∧
      (self.close_position p P).1 = p.calculate_pnl P ∧
      (self.close_position p P).2.capital =
        self.capital + p.size / p.leverage + p.calculate_pnl P ∧
      (self.close_position p P).2.open_positions = l₁ ++ l₂ ∧
      (self.close_position p P).2.closed_positions = self.closed_positions ++
        [{ p with pnl := p.calculate_pnl P, exit_price := some P }] ∧
      (self.close_position p P).2.trade_history = self.trade_history ++
        [TradeRecord.closeRec p.symbol p.position_type.value p.size p.entry_price P
          p.leverage (p.calculate_pnl P)] := by
  obtain ⟨l₁, l₂, hsplit, herase, -⟩ := eraseP_pid_of_mem self.open_positions p hnd hmem
  rw [close_position_present self p P hnd hmem]
  exact ⟨l₁, l₂, hsplit, rfl, rfl, herase, rfl, rfl⟩

/-- C6 witness: closing the sample open position at 110. -/
theorem close_position_spec_witness :
    ∃ l₁ l₂,
      sampleSim.open_positions = l₁ ++ sampleOpenPos :: l₂ ∧
      (sampleSim.close_position sampleOpenPos 110).1 = sampleOpenPos.calculate_pnl 110 ∧
      (sampleSim.close_position sampleOpenPos 110).2.capital =
        sampleSim.capital + sampleOpenPos.size / sampleOpenPos.leverage +
          sampleOpenPos.calculate_pnl 110 ∧
      (sampleSim.close_position sampleOpenPos 110).2.open_positions = l₁ ++ l₂ ∧
      (sampleSim.close_position sampleOpenPos 110).2.closed_positions =
        sampleSim.closed_positions ++
          [{ sampleOpenPos with
              pnl := sampleOpenPos.calculate_pnl 110
              exit_price := some 110 }] ∧
      (sampleSim.close_position sampleOpenPos 110).2.trade_history =
        sampleSim.trade_history ++
          [TradeRecord.closeRec sampleOpenPos.symbol sampleOpenPos.position_type.value
            sampleOpenPos.size sampleOpenPos.entry_price 110 sampleOpenPos.leverage
            (sampleOpenPos.calculate_pnl 110)] :=
  close_position_spec sampleSim sampleOpenPos 110 (by simp [sampleSim])
    (by simp [sampleSim])

/-- C7: closing a position whose identity is absent from the open list
returns `0.0` for any price and changes nothing; and that `0.0` is
indistinguishable by return value from a legitimate close with zero P&L
(the sample position closed at its entry price also returns `0.0`). -/
theorem close_position_missing_spec (self : TradingSimulator) (p : Position) (P : ℚ)
    (h : ∀ q ∈ self.open_positions, q.pid ≠ p.pid) :
    (self.close_position p P).1 = 0 ∧
    (self.close_position p P).2 = self ∧
    sampleOpenPos ∈ sampleSim.open_positions ∧
    (sampleSim.close_position sampleOpenPos 100).1 = 0 := by
  rw [close_position_absent self p P h]
  refine ⟨rfl, rfl, by simp [sampleSim], ?_⟩
  rw [close_position_present sampleSim sampleOpenPos 100 (by simp [sampleSim])
    (by simp [sampleSim])]
  norm_num [Position.calculate_pnl, sampleOpenPos]

/-- C7 witness: `missingPos` (identity 5) against `sampleSim`. -/
theorem close_position_missing_spec_witness :
    (sampleSim.close_position missingPos 110).1 = 0 ∧
    (sampleSim.close_position missingPos 110).2 = sampleSim ∧
    sampleOpenPos ∈ sampleSim.open_positions ∧
    (sampleSim.close_position sampleOpenPos 100).1 = 0 :=
  close_position_missing_spec sampleSim missingPos 110
    (by simp [sampleSim, sampleOpenPos, missingPos])

/-! ## Claim C4: capital conservation on a round trip -/

/-- The arguments of one `open_position` call. -/
structure OpenSpec where
  symbol : String
  ptype : String
  size : ℚ
  price : ℚ
  leverage : ℚ
  target : Option ℚ
  stop : Option ℚ
deriving DecidableEq

/-- Run a batch of `open_position` calls; `none` if any call is rejected,
otherwise the final state and the opened positions in call order. -/
def run_opens : TradingSimulator → List OpenSpec → Option (TradingSimulator × List Position)
  | sim, [] => some (sim, [])
  | sim, s :: rest =>
      match sim.open_position s.symbol s.ptype s.size s.price s.leverage s.target s.stop with
      | (some p, sim1) => (run_opens sim1 rest).map fun r => (r.1, p :: r.2)
      | (none, _) => none

/-- Close each listed position at its own entry price, in list order. -/
def close_at_entry (sim : TradingSimulator) (ps : List Position) : TradingSimulator :=
  ps.foldl (fun s p => (s.close_position p p.entry_price).2) sim

/-- Total margin locked by a list of positions. -/
def marginSum (l : List Position) : ℚ :=
  (l.map fun p => p.size / p.leverage).sum

/-- At its own entry price a position's P&L vanishes. -/
theorem calculate_pnl_at_entry (p : Position) : p.calculate_pnl p.entry_price = 0 := by
  unfold Position.calculate_pnl
  split_ifs <;> simp

/-- Inversion: a successful `open_position` result determines the opened
position and the next state. -/
theorem open_position_inv (self : TradingSimulator) (symbol position_type : String)
    (size current_price leverage : ℚ) (target_price stop_loss : Option ℚ)
    (p : Position) (sim1 : TradingSimulator)
    (h : self.open_position symbol position_type size current_price leverage
        target_price stop_loss = (some p, sim1)) :
    p = openedPosition self symbol position_type size current_price leverage
        target_price stop_loss ∧
    sim1 = { self with
      open_positions := self.open_positions ++ [p]
      capital := self.capital - size / leverage
      trade_history := self.trade_history ++
        [TradeRecord.openRec symbol position_type size current_price leverage]
      next_pid := self.next_pid + 1 } := by
  unfold TradingSimulator.open_position TradingSimulator.get_available_capital at h
  rw [Prod.mk.injEq] at h
  split_ifs at h with h1 h2 h3
  · exact absurd h.1 (by simp)
  · exact absurd h.1 (by simp)
  · exact absurd h.1 (by simp)
  · obtain ⟨h1, h2⟩ := h
    obtain rfl := Option.some.inj h1
    exact ⟨rfl, h2.symm⟩

/-- Appending a fresh-identity position preserves identity well-formedness. -/
theorem pid_facts_append_fresh (l : List Position) (p : Position) (n : ℕ)
    (hnd : (l.map Position.pid).Nodup) (hlt : ∀ q ∈ l, q.pid < n) (hp : p.pid = n) :
    ((l ++ [p]).map Position.pid).Nodup ∧ ∀ q ∈ l ++ [p], q.pid < n + 1 := by
  constructor
  · rw [List.map_append, List.map_cons, List.map_nil, List.nodup_append]
    refine ⟨hnd, List.nodup_singleton _, ?_⟩
    intro a ha hb
    rw [List.mem_singleton] at hb
    obtain ⟨q, hq, hqa⟩ := List.mem_map.mp ha
    exact Nat.ne_of_lt (hlt q hq) (hqa.trans (hb.trans hp))
  · intro q hq
    rcases List.mem_append.mp hq with hq | hq
    · exact Nat.lt_succ_of_lt (hlt q hq)
    · rw [List.mem_singleton] at hq
      subst hq
      rw [hp]
      exact Nat.lt_succ_self n

/-- Running a batch of successful opens: well-formedness is preserved, the
opened positions are appended in order, cash drops by the sum of their
margins, identities are fresh, and the baseline and closed list are kept. -/
theorem run_opens_spec (specs : List OpenSpec) :
    ∀ (sim sim' : TradingSimulator) (ps : List Position), WF sim →
      run_opens sim specs = some (sim', ps) →
      WF sim' ∧
      sim'.open_positions = sim.open_positions ++ ps ∧
      sim'.capital = sim.capital - marginSum ps ∧
      sim.next_pid ≤ sim'.next_pid ∧
      (∀ p ∈ ps, sim.next_pid ≤ p.pid) ∧
      sim'.initial_capital = sim.initial_capital ∧
      sim'.closed_positions = sim.closed_positions := by
  induction specs with
  | nil =>
      intro sim sim' ps hwf hrun
      rw [run_opens] at hrun
      rw [Option.some.injEq, Prod.mk.injEq] at hrun
      obtain ⟨rfl, rfl⟩ := hrun
      exact ⟨hwf, by simp, by simp [marginSum], le_refl _, by simp, rfl, rfl⟩
  | cons s rest ih =>
      intro sim sim' ps hwf hrun
      rw [run_opens] at hrun
      rcases hopen : sim.open_position s.symbol s.ptype s.size s.price s.leverage
        s.target s.stop with ⟨_ | p, sim1⟩
      · rw [hopen] at hrun
        cases hrun
      · rw [hopen] at hrun
        obtain ⟨⟨sim2, ps2⟩, hrun2, heq⟩ := Option.map_eq_some'.mp hrun
        rw [Prod.mk.injEq] at heq
        obtain ⟨rfl, rfl⟩ := heq
        obtain ⟨hp, hsim1⟩ := open_position_inv sim s.symbol s.ptype s.size s.price
          s.leverage s.target s.stop p sim1 hopen
        have hpid : p.pid = sim.next_pid := by rw [hp]; rfl
        have hwf1 : WF sim1 := by
          obtain ⟨hnd1, hlt1⟩ := pid_facts_append_fresh sim.open_positions p
            sim.next_pid hwf.1 hwf.2 hpid
          rw [hsim1]
          exact ⟨hnd1, hlt1⟩
        obtain ⟨hwfF, hopenF, hcapF, hnextF, hfreshF, hinitF, hclosedF⟩ :=
          ih sim1 sim2 ps2 hwf1 hrun2
        rw [hsim1] at hopenF hcapF hnextF hfreshF hinitF hclosedF
        refine ⟨hwfF, ?_, ?_, ?_, ?_, ?_, ?_⟩
        · rw [hopenF]
          simp
        · rw [hcapF]
          have hsz : p.size = s.size := by rw [hp]; rfl
          have hlev : p.leverage = s.leverage := by rw [hp]; rfl
          simp only [marginSum, List.map_cons, List.sum_cons, hsz, hlev]
          show sim.capital - s.size / s.leverage - marginSum ps2 =
            sim.capital - (s.size / s.leverage + marginSum ps2)
          ring
        · exact le_trans (Nat.le_succ _) hnextF
        · intro q hq
          rcases List.mem_cons.mp hq with rfl | hq2
          · exact le_of_eq hpid.symm
          · exact le_trans (Nat.le_succ _) (hfreshF q hq2)
        · exact hinitF
        · exact hclosedF

/-- Closing, in any order, positions that are present in the open list (with
distinct identities) returns the sum of their margins to cash; at their own
entry prices the realized P&L of every close is zero. -/
theorem close_at_entry_capital (cs : List Position) :
    ∀ sim : TradingSimulator,
      (sim.open_positions.map Position.pid).Nodup →
      (∀ p ∈ cs, p ∈ sim.open_positions) →
      (cs.map Position.pid).Nodup →
      (close_at_entry sim cs).capital = sim.capital + marginSum cs := by
  induction cs with
  | nil =>
      intro sim _ _ _
      simp [close_at_entry, marginSum]
  | cons p t ih =>
      intro sim hnd hmem hcnd
      rw [List.map_cons, List.nodup_cons] at hcnd
      have hclose := close_position_present sim p p.entry_price hnd
        (hmem p (List.mem_cons_self p t))
      have hstep : close_at_entry sim (p :: t) =
          close_at_entry (sim.close_position p p.entry_price).2 t := rfl
      rw [hstep, hclose]
      have hnd1 : ((sim.open_positions.eraseP (fun q => q.pid == p.pid)).map
          Position.pid).Nodup :=
        hnd.sublist ((List.eraseP_sublist sim.open_positions).map Position.pid)
      have hmem1 : ∀ q ∈ t, q ∈ sim.open_positions.eraseP (fun q => q.pid == p.pid) := by
        intro q hq
        have hqne : q.pid ≠ p.pid := fun hEq =>
          hcnd.1 (hEq ▸ List.mem_map_of_mem Position.pid hq)
        exact (List.mem_eraseP_of_neg (by simpa using hqne)).mpr
          (hmem q (List.mem_cons_of_mem p hq))
      rw [ih _ hnd1 hmem1 hcnd.2]
      show sim.capital + p.size / p.leverage + p.calculate_pnl p.entry_price + marginSum t =
        sim.capital + marginSum (p :: t)
      rw [calculate_pnl_at_entry]
      simp only [marginSum, List.map_cons, List.sum_cons]
      ring

/-- C4: after any batch of successful opens from a well-formed state, closing
the opened positions -- in any order -- each at its own entry price restores
cash exactly to its value before the first open; each such close realizes
zero P&L. -/
theorem round_trip_capital_spec (sim sim' : TradingSimulator) (specs : List OpenSpec)
    (ps cs : List Position) (hwf : WF sim)
    (hrun : run_opens sim specs = some (sim', ps)) (hperm : cs.Perm ps) :
    (close_at_entry sim' cs).capital = sim.capital ∧
    ∀ p : Position, p.calculate_pnl p.entry_price = 0 := by
  obtain ⟨hwf', hopen', hcap', -, -, -, -⟩ := run_opens_spec specs sim sim' ps hwf hrun
  have hpnd : (ps.map Position.pid).Nodup := by
    have h := hwf'.1
    rw [hopen', List.map_append] at h
    exact h.of_append_right
  have hmem : ∀ p ∈ cs, p ∈ sim'.open_positions := by
    intro p hp
    rw [hopen']
    exact List.mem_append_right _ (hperm.mem_iff.mp hp)
  have hcnd : (cs.map Position.pid).Nodup := ((hperm.map Position.pid).nodup_iff).mpr hpnd
  have hmsum : marginSum cs = marginSum ps := by
    unfold marginSum
    exact (hperm.map _).sum_eq
  refine ⟨?_, calculate_pnl_at_entry⟩
  rw [close_at_entry_capital cs sim' hwf'.1 hmem hcnd, hcap', hmsum]
  ring

/-- The C4 witness batch: one LONG of size 200 at price 100 with leverage 2. -/
def specC4 : OpenSpec :=
  { symbol := "BTCUSDT"
    ptype := "long"
    size := 200
    price := 100
    leverage := 2
    target := none
    stop := none }

def posC4 : Position :=
  openedPosition (TradingSimulator.init 1000 10) "BTCUSDT" "long" 200 100 2 none none

def simC4 : TradingSimulator :=
  ((TradingSimulator.init 1000 10).open_position "BTCUSDT" "long" 200 100 2 none none).2

/-- C4 witness: open one position on a fresh capital-1000 ledger, close it at
its entry price; cash is restored. -/
theorem round_trip_capital_spec_witness :
    (close_at_entry simC4 [posC4]).capital = (TradingSimulator.init 1000 10).capital ∧
    ∀ p : Position, p.calculate_pnl p.entry_price = 0 :=
  round_trip_capital_spec (TradingSimulator.init 1000 10) simC4 [specC4] [posC4] [posC4]
    (by unfold WF TradingSimulator.init; simp)
    (by
      have h := open_position_succeeds (TradingSimulator.init 1000 10) "BTCUSDT" "long"
        200 100 2 none none (by norm_num) (by norm_num [TradingSimulator.init])
        (by norm_num [TradingSimulator.init])
      simp only [run_opens, specC4, h, Option.map_some', simC4, posC4])
    (List.Perm.refl _)

/-! ## Claim C5: total value and the accounting invariant -/

/-- Sum of stored (realized) P&L over a list of positions. -/
def closedPnlSum (l : List Position) : ℚ :=
  (l.map Position.pnl).sum

/-- Sum of unrealized P&L over a list of positions at snapshot prices,
counting positions without a price as 0 (such positions contribute nothing in
`get_total_value`). -/
def unrealizedSum (current_prices : List (String × ℚ)) (l : List Position) : ℚ :=
  (l.map fun p =>
    match current_prices.lookup p.symbol with
    | some price => p.calculate_pnl price
    | none => 0).sum

/-- Erasing the element that `find?` locates removes exactly its contribution
from a mapped sum. -/
theorem sum_map_eraseP (f : Position → ℚ) (q : Position → Bool) (a : Position) :
    ∀ l : List Position, l.find? q = some a →
      ((l.eraseP q).map f).sum = (l.map f).sum - f a := by
  intro l
  induction l with
  | nil => intro hfind; cases hfind
  | cons b t ih =>
      intro hfind
      by_cases hb : q b
      · rw [List.find?_cons_of_pos t hb] at hfind
        obtain rfl := Option.some.inj hfind
        rw [List.eraseP_cons_of_pos hb, List.map_cons, List.sum_cons]
        ring
      · rw [List.find?_cons_of_neg t hb] at hfind
        rw [List.eraseP_cons_of_neg hb, List.map_cons, List.sum_cons, ih hfind,
          List.map_cons, List.sum_cons]
        ring

/-- A failing `open_position` leaves the state unchanged (inversion form). -/
theorem open_position_none_inv (self : TradingSimulator) (symbol position_type : String)
    (size current_price leverage : ℚ) (target_price stop_loss : Option ℚ)
    (sim1 : TradingSimulator)
    (h : self.open_position symbol position_type size current_price leverage
        target_price stop_loss = (none, sim1)) :
    sim1 = self := by
  unfold TradingSimulator.open_position TradingSimulator.get_available_capital at h
  rw [Prod.mk.injEq] at h
  split_ifs at h
  · exact h.2.symm
  · exact h.2.symm
  · exact h.2.symm
  · exact absurd h.1 (by simp)

/-- States reachable from construction using only the ledger's own `open` and
`close` operations. -/
inductive Reachable : TradingSimulator → Prop where
  | init (c ml : ℚ) : Reachable (TradingSimulator.init c ml)
  | open_step (sim : TradingSimulator) (symbol ptype : String) (size price lev : ℚ)
      (tp sl : Option ℚ) : Reachable sim →
      Reachable (sim.open_position symbol ptype size price lev tp sl).2
  | close_step (sim : TradingSimulator) (p : Position) (price : ℚ) : Reachable sim →
      Reachable (sim.close_position p price).2

/-- The accounting invariant of reachable states: cash equals the baseline
minus margin locked in open positions plus realized P&L of closed ones. -/
theorem reachable_accounting (sim : TradingSimulator) (h : Reachable sim) :
    sim.capital = sim.initial_capital - marginSum sim.open_positions +
      closedPnlSum sim.closed_positions := by
  induction h with
  | init c ml => simp [TradingSimulator.init, marginSum, closedPnlSum]
  | open_step sim symbol ptype size price lev tp sl _ ih =>
      rcases hopen : sim.open_position symbol ptype size price lev tp sl with ⟨_ | p, sim1⟩
      · obtain rfl := open_position_none_inv sim symbol ptype size price lev tp sl
          sim1 hopen
        exact ih
      · obtain ⟨hp, rfl⟩ := open_position_inv sim symbol ptype size price lev tp sl
          p sim1 hopen
        show sim.capital - size / lev = sim.initial_capital -
          marginSum (sim.open_positions ++ [p]) + closedPnlSum sim.closed_positions
        have hsz : p.size = size := by rw [hp]; rfl
        have hlev : p.leverage = lev := by rw [hp]; rfl
        simp only [marginSum, List.map_append, List.sum_append, List.map_cons,
          List.map_nil, List.sum_cons, List.sum_nil, hsz, hlev]
        rw [ih]
        unfold marginSum
        ring
  | close_step sim p price _ ih =>
      rcases hfind : sim.open_positions.find? (fun q => q.pid == p.pid) with _ | stored
      · have hc : sim.close_position p price = (0, sim) := by
          unfold TradingSimulator.close_position
          rw [hfind]
        rw [hc]
        exact ih
      · have hc : sim.close_position p price =
            (stored.calculate_pnl price,
              { sim with
                capital := sim.capital + stored.size / stored.leverage +
                  stored.calculate_pnl price
                open_positions := sim.open_positions.eraseP (fun q => q.pid == p.pid)
                closed_positions := sim.closed_positions ++ [stored.closedAt price]
                trade_history := sim.trade_history ++
                  [TradeRecord.closeRec stored.symbol stored.position_type.value
                    stored.size stored.entry_price price stored.leverage
                    (stored.calculate_pnl price)] }) := by
          unfold TradingSimulator.close_position
          rw [hfind]
        rw [hc]
        show sim.capital + stored.size / stored.leverage + stored.calculate_pnl price =
          sim.initial_capital -
            marginSum (sim.open_positions.eraseP (fun q => q.pid == p.pid)) +
            closedPnlSum (sim.closed_positions ++ [stored.closedAt price])
        have hm : marginSum (sim.open_positions.eraseP (fun q => q.pid == p.pid)) =
            marginSum sim.open_positions - stored.size / stored.leverage := by
          unfold marginSum
          exact sum_map_eraseP _ _ stored sim.open_positions hfind
        have hcp : closedPnlSum (sim.closed_positions ++ [stored.closedAt price]) =
            closedPnlSum sim.closed_positions + stored.calculate_pnl price := by
          simp [closedPnlSum, Position.closedAt]
        rw [hm, hcp, ih]
        ring

/-- `get_total_value` unrolled: cash plus locked margin plus priced
unrealized P&L. -/
theorem get_total_value_eq (current_prices : List (String × ℚ))
    (sim : TradingSimulator) :
    sim.get_total_value current_prices =
      sim.capital + marginSum sim.open_positions +
        unrealizedSum current_prices sim.open_positions := by
  obtain ⟨ic, cap, ml, openl, closedl, th, np⟩ := sim
  unfold TradingSimulator.get_total_value
  dsimp only
  induction openl generalizing cap with
  | nil => simp [marginSum, unrealizedSum]
  | cons p t ih =>
      rw [List.foldl_cons]
      rcases hl : current_prices.lookup p.symbol with _ | price
      · rw [ih (cap + p.size / p.leverage)]
        simp only [marginSum, unrealizedSum, List.map_cons, List.sum_cons, hl]
        ring
      · rw [ih (cap + p.size / p.leverage + p.calculate_pnl price)]
        simp only [marginSum, unrealizedSum, List.map_cons, List.sum_cons, hl]
        ring

/-- C5: on any reachable state whose open symbols are all priced by the
snapshot, total value equals cash plus locked margins plus unrealized P&L,
and equals the initial capital plus realized P&L of closed positions plus
unrealized P&L of open ones; with no open positions it equals cash for any
snapshot. -/
theorem total_value_spec (sim : TradingSimulator)
    (current_prices : List (String × ℚ)) (hreach : Reachable sim)
    (hcov : ∀ p ∈ sim.open_positions, (current_prices.lookup p.symbol).isSome) :
    sim.get_total_value current_prices =
      sim.capital + marginSum sim.open_positions +
        unrealizedSum current_prices sim.open_positions ∧
    sim.get_total_value current_prices =
      sim.initial_capital + closedPnlSum sim.closed_positions +
        unrealizedSum current_prices sim.open_positions ∧
    (sim.open_positions = [] →
      ∀ prices2 : List (String × ℚ), sim.get_total_value prices2 = sim.capital) := by
  refine ⟨get_total_value_eq current_prices sim, ?_, ?_⟩
  · rw [get_total_value_eq current_prices sim, reachable_accounting sim hreach]
    ring
  · intro hempty prices2
    rw [get_total_value_eq prices2 sim, hempty]
    simp [marginSum, unrealizedSum]

/-- C5 witness: the one-open-LONG state (entry 100, size 200, leverage 2,
cash 900) against the snapshot pricing BTCUSDT at 110. -/
theorem total_value_spec_witness :
    simC4.get_total_value [("BTCUSDT", 110)] =
      simC4.capital + marginSum simC4.open_positions +
        unrealizedSum [("BTCUSDT", 110)] simC4.open_positions ∧
    simC4.get_total_value [("BTCUSDT", 110)] =
      simC4.initial_capital + closedPnlSum simC4.closed_positions +
        unrealizedSum [("BTCUSDT", 110)] simC4.open_positions ∧
    (simC4.open_positions = [] →
      ∀ prices2 : List (String × ℚ), simC4.get_total_value prices2 = simC4.capital) :=
  total_value_spec simC4 [("BTCUSDT", 110)]
    (Reachable.open_step (TradingSimulator.init 1000 10) "BTCUSDT" "long" 200 100 2
      none none (Reachable.init 1000 10))
    (by
      have h := open_position_succeeds (TradingSimulator.init 1000 10) "BTCUSDT" "long"
        200 100 2 none none (by norm_num) (by norm_num [TradingSimulator.init])
        (by norm_num [TradingSimulator.init])
      simp only [simC4, h]
      simp [openedPosition, TradingSimulator.init])

/-! ## Claim C8: closing everything priced by a snapshot -/

/-- Fold invariant for `close_all_positions`: positions already skipped
(`r`, all unpriced) stay, priced positions of the worklist `l` get closed at
their snapshot price and appended to the closed list in order, unpriced ones
remain open. -/
theorem close_all_aux (current_prices : List (String × ℚ)) :
    ∀ (l r : List Position) (s : TradingSimulator),
      s.open_positions = r ++ l →
      ((r ++ l).map Position.pid).Nodup →
      (∀ p ∈ r, current_prices.lookup p.symbol = none) →
      (l.foldl (fun s position =>
          match current_prices.lookup position.symbol with
          | some price => (s.close_position position price).2
          | none => s) s).open_positions =
        r ++ l.filter (fun p => (current_prices.lookup p.symbol).isNone) ∧
      (l.foldl (fun s position =>
          match current_prices.lookup position.symbol with
          | some price => (s.close_position position price).2
          | none => s) s).closed_positions =
        s.closed_positions ++
          (l.filter fun p => (current_prices.lookup p.symbol).isSome).map
            (fun p =>
              match current_prices.lookup p.symbol with
              | some price => p.closedAt price
              | none => p) := by
  intro l
  induction l with
  | nil =>
      intro r s hopen _ _
      constructor
      · rw [List.foldl_nil, hopen]
        simp
      · simp
  | cons p t ih =>
      intro r s hopen hnd hr
      rw [List.foldl_cons]
      rcases hl : current_prices.lookup p.symbol with _ | price
      · have hr1 : ∀ q ∈ r ++ [p], current_prices.lookup q.symbol = none := by
          intro q hq
          rcases List.mem_append.mp hq with hq | hq
          · exact hr q hq
          · rw [List.mem_singleton] at hq
            subst hq
            exact hl
        obtain ⟨h1, h2⟩ := ih (r ++ [p]) s
          (by rw [hopen, List.append_cons])
          (by rw [← List.append_cons]; exact hnd) hr1
        constructor
        · rw [h1, List.filter_cons_of_pos (by simp [hl])]
          simp
        · rw [h2, List.filter_cons_of_neg (by simp [hl])]
      · have hmem : p ∈ s.open_positions := by
          rw [hopen]
          exact List.mem_append_right r (List.mem_cons_self p t)
        have hnds : (s.open_positions.map Position.pid).Nodup := by
          rw [hopen]
          exact hnd
        have hclose := close_position_present s p price hnds hmem
        have hrne : ∀ b ∈ r, ¬(b.pid == p.pid) = true := by
          intro b hb hbeq
          rw [beq_iff_eq] at hbeq
          have : (List.map Position.pid r).Nodup ∧ (List.map Position.pid (p :: t)).Nodup ∧
              (List.map Position.pid r).Disjoint (List.map Position.pid (p :: t)) := by
            rw [List.map_append, List.nodup_append] at hnd
            exact hnd
          exact this.2.2 (List.mem_map_of_mem Position.pid hb)
            (by rw [hbeq]; exact List.mem_map_of_mem Position.pid (List.mem_cons_self p t))
        have herase : s.open_positions.eraseP (fun q => q.pid == p.pid) = r ++ t := by
          rw [hopen, List.eraseP_append_right _ hrne,
            List.eraseP_cons_of_pos (by simp)]
        obtain ⟨h1, h2⟩ := ih r (s.close_position p price).2
          (by rw [hclose]; exact herase)
          (by
            have hsub : (r ++ t).Sublist (r ++ p :: t) :=
              (List.sublist_cons_self p t).append_left r
            exact hnd.sublist (hsub.map Position.pid))
          hr
        constructor
        · rw [h1, List.filter_cons_of_neg (by simp [hl])]
        · rw [h2, hclose]
          dsimp only
          rw [List.filter_cons_of_pos (by simp [hl]), List.map_cons, List.append_assoc]
          rw [hl]
          rfl

/-- C8: `close_all_positions` closes exactly the open positions whose symbol
is priced by the snapshot, each at its snapshot price (appended to the closed
list in order), and every open position without a price stays open,
unchanged and in order. -/
theorem close_all_positions_spec (sim : TradingSimulator)
    (current_prices : List (String × ℚ))
    (hnd : (sim.open_positions.map Position.pid).Nodup) :
    (sim.close_all_positions current_prices).open_positions =
      sim.open_positions.filter (fun p => (current_prices.lookup p.symbol).isNone) ∧
    (sim.close_all_positions current_prices).closed_positions =
      sim.closed_positions ++
        (sim.open_positions.filter fun p => (current_prices.lookup p.symbol).isSome).map
          (fun p =>
            match current_prices.lookup p.symbol with
            | some price => p.closedAt price
            | none => p) := by
  have h := close_all_aux current_prices sim.open_positions [] sim (by simp)
    (by simpa using hnd) (by simp)
  unfold TradingSimulator.close_all_positions
  simpa using h

/-- C8 witness: the one-open-position ledger against a snapshot that prices
its symbol. -/
theorem close_all_positions_spec_witness :
    (sampleSim.close_all_positions [("BTCUSDT", 110)]).open_positions =
      sampleSim.open_positions.filter
        (fun p => (List.lookup p.symbol [("BTCUSDT", 110)]).isNone) ∧
    (sampleSim.close_all_positions [("BTCUSDT", 110)]).closed_positions =
      sampleSim.closed_positions ++
        (sampleSim.open_positions.filter
          fun p => (List.lookup p.symbol [("BTCUSDT", 110)]).isSome).map
          (fun p =>
            match List.lookup p.symbol [("BTCUSDT", 110)] with
            | some price => p.closedAt price
            | none => p) :=
  close_all_positions_spec sampleSim [("BTCUSDT", 110)] (by simp [sampleSim])

/-! ## Claim C9: win rate -/

/-- C9: with at least one closed position, `win_rate` is the fraction of
closed positions with strictly positive realized P&L times 100; with none it
is 0 -- a total, division-by-zero-free definition. -/
theorem win_rate_spec (sim : TradingSimulator)
    (current_prices : List (String × ℚ)) :
    (sim.closed_positions ≠ [] →
      (sim.get_statistics current_prices).win_rate =
        ((sim.closed_positions.filter fun p => decide (0 < p.pnl)).length : ℚ) /
          (sim.closed_positions.length : ℚ) * 100) ∧
    (sim.closed_positions = [] →
      (sim.get_statistics current_prices).win_rate = 0) := by
  constructor
  · intro hne
    show (if sim.closed_positions = [] then (0 : ℚ) else _) = _
    rw [if_neg hne]
  · intro he
    show (if sim.closed_positions = [] then (0 : ℚ) else _) = 0
    rw [if_pos he]

/-- A ledger with two closed trades, one winner (realized +40) and one loser
(realized -20). -/
def wonPos : Position :=
  { sampleOpenPos with pid := 1, pnl := 40, exit_price := some 110 }

def lostPos : Position :=
  { sampleOpenPos with pid := 2, pnl := -20, exit_price := some 90 }

def simC9 : TradingSimulator :=
  { initial_capital := 1000
    capital := 1020
    max_leverage := 10
    open_positions := []
    closed_positions := [wonPos, lostPos]
    trade_history := []
    next_pid := 3 }

/-- C9 witness: one winner of two closed trades gives 50; a fresh ledger
gives 0. -/
theorem win_rate_spec_witness :
    (simC9.get_statistics []).win_rate = 50 ∧
    ((TradingSimulator.init 1000 10).get_statistics []).win_rate = 0 := by
  constructor
  · rw [(win_rate_spec simC9 []).1 (by simp [simC9])]
    rw [show simC9.closed_positions.filter (fun p => decide (0 < p.pnl)) = [wonPos] by
      rw [show simC9.closed_positions = [wonPos, lostPos] from rfl,
        List.filter_cons_of_pos (by norm_num [wonPos, sampleOpenPos]),
        List.filter_cons_of_neg (by norm_num [lostPos, sampleOpenPos]), List.filter_nil]]
    norm_num [simC9]
  · exact (win_rate_spec (TradingSimulator.init 1000 10) []).2 rfl

/-! ## Claim C10: direction-string parsing -/

/-- C10: whenever the leverage and capital checks pass, `open_position`
accepts every direction string; the position is LONG exactly when the
lowercased string is `"long"`, so any other string -- `"buy"`, `"LONG "`,
`""`, ... -- silently opens a SHORT. -/
theorem direction_parsing_spec (self : TradingSimulator) (symbol dir : String)
    (size current_price leverage : ℚ) (target_price stop_loss : Option ℚ)
    (h1 : 1 ≤ leverage) (h2 : leverage ≤ self.max_leverage)
    (h3 : size / leverage ≤ self.capital) :
    ∃ p, (self.open_position symbol dir size current_price leverage
        target_price stop_loss).1 = some p ∧
      p.position_type =
        (if dir.toLower = "long" then PositionType.long else PositionType.short) ∧
      (dir.toLower ≠ "long" → p.position_type = PositionType.short) := by
  rw [open_position_succeeds self symbol dir size current_price leverage
    target_price stop_loss h1 h2 h3]
  refine ⟨openedPosition self symbol dir size current_price leverage
    target_price stop_loss, rfl, rfl, ?_⟩
  intro hne
  show (if dir.toLower = "long" then PositionType.long else PositionType.short) =
    PositionType.short
  rw [if_neg hne]

/-- C10 witness: direction `"buy"` on a fresh ledger with valid leverage and
capital. -/
theorem direction_parsing_spec_witness :
    ∃ p, ((TradingSimulator.init 1000 10).open_position "BTCUSDT" "buy" 200 100 2
        none none).1 = some p ∧
      p.position_type =
        (if "buy".toLower = "long" then PositionType.long else PositionType.short) ∧
      ("buy".toLower ≠ "long" → p.position_type = PositionType.short) :=
  direction_parsing_spec (TradingSimulator.init 1000 10) "BTCUSDT" "buy" 200 100 2
    none none (by norm_num) (by norm_num [TradingSimulator.init])
    (by norm_num [TradingSimulator.init])

end LLMTrading
